import Mathlib

/-!
Verification of the VAST converter (`src/app.py`).

Strings are modelled as `List Char` (Python 3 `str` values are sequences of
code points).  Python library primitives used by the program
(`str.strip`, `str.split`, `str.replace` with empty replacement,
`urllib.parse.unquote`, `urllib.parse.urlparse` / `parse_qs`) are embedded
as executable Lean functions with the same semantics on the data the
program handles; percent-decoding maps each decoded byte directly to the
scalar value with that code, which agrees with CPython on ASCII data.
Network I/O (`requests`) and the external `ffmpeg` subprocess are modelled
as oracle parameters of the request pipeline.
-/

/-- ASCII whitespace recognised by Python `str.strip`. -/
def pyIsSpace (c : Char) : Bool :=
  c = ' ' || c = '\t' || c = '\n' || c = '\r' || c = '\x0b' || c = '\x0c'

/-- Embedding of Python `str.strip()`: drop leading and trailing whitespace. -/
def pyStrip (l : List Char) : List Char :=
  ((l.dropWhile pyIsSpace).reverse.dropWhile pyIsSpace).reverse

/-- Embedding of Python `str.split(sep)` for a one-character separator:
splits on every occurrence, keeping empty segments. -/
def splitOnChar (sep : Char) : List Char → List (List Char)
  | [] => [[]]
  | c :: cs =>
    match splitOnChar sep cs with
    | [] => [[]]
    | part :: parts => if c = sep then [] :: part :: parts else (c :: part) :: parts

/-- Value of a hexadecimal digit, as used by `urllib.parse.unquote`. -/
def hexVal (c : Char) : Option Nat :=
  if '0' ≤ c ∧ c ≤ '9' then some (c.toNat - '0'.toNat)
  else if 'a' ≤ c ∧ c ≤ 'f' then some (c.toNat - 'a'.toNat + 10)
  else if 'A' ≤ c ∧ c ≤ 'F' then some (c.toNat - 'A'.toNat + 10)
  else none

/-- Embedding of `urllib.parse.unquote`: each valid `%XX` escape becomes the
character with code `XX`; invalid escapes are kept literally.  (CPython
additionally UTF-8-decodes consecutive high bytes; this agrees on ASCII.) -/
def pyUnquote : List Char → List Char
  | [] => []
  | c :: a :: b :: rest =>
    if c = '%' then
      match hexVal a, hexVal b with
      | some ha, some hb => Char.ofNat (16 * ha + hb) :: pyUnquote rest
      | _, _ => c :: pyUnquote (a :: b :: rest)
    else c :: pyUnquote (a :: b :: rest)
  | c :: rest => c :: pyUnquote rest

/-- The `+`-to-space translation `parse_qs` applies before percent-decoding. -/
def plusToSpace (l : List Char) : List Char :=
  l.map fun c => if c = '+' then ' ' else c

/-- First AdTitle example from the spec, built without a literal apostrophe. -/
def omdTitle : List Char :=
  "250415_OMD_The Home Depot_HD Home Awareness Q2".toList ++
    [Char.ofNat 39] ++ "25".toList

/-- Case-insensitive match of the regex `_OMD_([^_]+)_` anchored at the head
of the list: the five-character opener, then a non-empty greedy run of
non-underscore characters, then a further underscore. -/
def omdAt (l : List Char) : Option (List Char) :=
  match l with
  | u1 :: o :: m :: d :: u2 :: rest =>
    if u1 = '_' ∧ o.toLower = 'o' ∧ m.toLower = 'm' ∧ d.toLower = 'd' ∧ u2 = '_' then
      if (rest.takeWhile fun c => c ≠ '_') ≠ [] ∧
          (rest.takeWhile fun c => c ≠ '_').length < rest.length then
        some (rest.takeWhile fun c => c ≠ '_')
      else none
    else none
  | _ => none

/-- Embedding of `re.search(r"_OMD_([^_]+)_", ad_title, re.IGNORECASE)`:
leftmost position at which the pattern matches, returning capture group 1. -/
def omdSearch : List Char → Option (List Char)
  | [] => none
  | c :: cs =>
    match omdAt (c :: cs) with
    | some b => some b
    | none => omdSearch cs

/-- Rule "Try pattern like Advertiser_BrandName_Campaign" from
`extract_brand_name`: the second underscore segment when it exists and has
length greater than 2 (`if len(parts) > 1` / `if len(parts[1]) > 2`). -/
def secondSegment (parts : List (List Char)) : Option (List Char) :=
  match parts.get? 1 with
  | some p1 => if p1.length > 2 then some p1 else none
  | none => none

/-- Python `p[0].isupper()` guarded by non-emptiness (ASCII range). -/
def firstCharUpper (p : List Char) : Bool :=
  match p with
  | c :: _ => c.isUpper
  | [] => false

/-- Embedding of `extract_brand_name` (src/app.py lines 29-60). -/
def extract_brand_name (ad_title : List Char) : List Char :=
  if ad_title = [] then "Default Brand".toList
  else
    match omdSearch ad_title with
    | some brand => brand
    | none =>
      let parts := splitOnChar '_' ad_title
      match secondSegment parts with
      | some p1 => p1
      | none =>
        match (parts.filter fun p => decide (p.length > 3) && firstCharUpper p).head? with
        | some pb => pb
        | none => pyStrip ((splitOnChar '(' ad_title).headD [])

/-- Query component extracted by `urllib.parse.urlparse(url).query`: the part
of the URL after the first `?` that precedes the first `#`. -/
def urlQuery (url : List Char) : List Char :=
  ((url.takeWhile fun c => c ≠ '#').dropWhile fun c => c ≠ '?').drop 1

/-- Embedding of `urllib.parse.parse_qsl` with default arguments
(separator `&`, blank values dropped): each non-empty `name=value` pair with a
non-empty value contributes `(name, value)` after `+`-to-space translation and
percent-decoding of both components. -/
def parseQsl (qs : List Char) : List (List Char × List Char) :=
  (splitOnChar '&' qs).filterMap fun nv =>
    if nv = [] then none
    else
      let name := nv.takeWhile fun c => c ≠ '='
      let rest := nv.dropWhile fun c => c ≠ '='
      if rest = [] then none
      else
        let value := rest.drop 1
        if value = [] then none
        else some (pyUnquote (plusToSpace name), pyUnquote (plusToSpace value))

/-- `parse_qs(qs).get(key, [])`: all values bound to `key`, in query order. -/
def qsGet (qs : List Char) (key : List Char) : List (List Char) :=
  (parseQsl qs).filterMap fun nv => if nv.1 = key then some nv.2 else none

/-- Fallback scan of `extract_click_url` over the keys
`u`, `url`, `redirect_url`, `destination_url`, `finalUrl`: the first key with
a bound value wins, and the value is percent-decoded once more. -/
def firstFallbackKey (q : List Char) : List (List Char) → Option (List Char)
  | [] => none
  | k :: ks =>
    match (qsGet q k).head? with
    | some v => some (pyUnquote v)
    | none => firstFallbackKey q ks

/-- The fallback keys of `extract_click_url`, in scan order. -/
def fallbackKeys : List (List Char) :=
  ["u".toList, "url".toList, "redirect_url".toList,
   "destination_url".toList, "finalUrl".toList]

/-- Embedding of `extract_click_url` (src/app.py lines 62-82).  The
`%%CLICK_URL_UNESC%%` conditional in the source is a `pass` and has no
effect; the `try`/`except` wrapper has no failing path in this model. -/
def extract_click_url (clickthrough_url : List Char) : Option (List Char) :=
  if clickthrough_url = [] then none
  else
    let q := urlQuery clickthrough_url
    match (qsGet q "click".toList).head? with
    | some v => some (pyUnquote v)
    | none => firstFallbackKey q fallbackKeys

/-- Python truthiness of an optional string: present and non-empty. -/
def truthyO (o : Option (List Char)) : Bool :=
  match o with
  | some t => !t.isEmpty
  | none => false

/-- Does the URL start with `http://` or `https://`? -/
def startsHttp (url : List Char) : Bool :=
  "http://".toList.isPrefixOf url || "https://".toList.isPrefixOf url

/-- Embedding of `resolve_final_url` (src/app.py lines 84-98).  The network
is an oracle `net`: `net url = some r` models `session.get` following
redirects (bounded hops, 20 s timeout) and landing on `r`; `net url = none`
models `requests.RequestException`, in which case the input is returned. -/
def resolve_final_url (net : List Char → Option (List Char)) (url : List Char) : List Char :=
  if url = [] then url
  else if !startsHttp url then url
  else
    match net url with
    | some r => r
    | none => url

/-- Embedding of `get_final_destination` (src/app.py lines 100-129). -/
def get_final_destination (net : List Char → Option (List Char))
    (clickthrough_url : List Char) : List Char :=
  if clickthrough_url = [] then clickthrough_url
  else
    let io := extract_click_url clickthrough_url
    if truthyO io then
      let i := io.getD []
      let f := resolve_final_url net i
      if f ≠ [] then f else i
    else
      let f := resolve_final_url net clickthrough_url
      if f ≠ [] ∧ f ≠ clickthrough_url then f else clickthrough_url

/-- Worker for `removeOccurrences`: scans left to right with a skip counter;
after a match of `p :: ps` the matched characters are consumed (`c` now, the
remaining `ps.length` via the counter), which is exactly the left-to-right
non-overlapping scan of Python `str.replace(old, "")`. -/
def remAux (p : Char) (ps : List Char) : List Char → Nat → List Char
  | [], _ => []
  | _ :: cs, k + 1 => remAux p ps cs k
  | c :: cs, 0 =>
    if (p :: ps).isPrefixOf (c :: cs) then remAux p ps cs ps.length
    else c :: remAux p ps cs 0

/-- Embedding of Python `str.replace(pat, "")`: delete every left-to-right
non-overlapping occurrence of `pat`. -/
def removeOccurrences (pat : List Char) (s : List Char) : List Char :=
  match pat with
  | [] => s
  | p :: ps => remAux p ps s 0

/-- Does `pat` occur as a contiguous sublist of `l`? -/
def occursIn (pat : List Char) : List Char → Bool
  | [] => pat.isEmpty
  | c :: cs => pat.isPrefixOf (c :: cs) || occursIn pat cs

/-- No position strictly inside `x` starts an occurrence of `pat` in the
concatenation `x ++ pat ++ y` (so the displayed occurrence is the leftmost). -/
def noEarlyOccur (pat : List Char) : List Char → List Char → Bool
  | [], _ => true
  | c :: cs, y => !pat.isPrefixOf ((c :: cs) ++ pat ++ y) && noEarlyOccur pat cs y

/-- The literal `'https://'` removed by the display-URL cleanup. -/
def httpsPat : List Char := "https://".toList

/-- The literal `'http://'` removed by the display-URL cleanup. -/
def httpPat : List Char := "http://".toList

/-- Pre-truncation display text (src/app.py lines 218-219): percent-decode
the chosen URL, then delete every occurrence of `https://`, then every
occurrence of `http://`. -/
def scheme_stripped (urlForDisplay : List Char) : List Char :=
  removeOccurrences httpPat (removeOccurrences httpsPat (pyUnquote urlForDisplay))

/-- Display text drawn for the URL (src/app.py lines 216-224): the
scheme-stripped decoded URL, truncated to 67 characters plus `...` when it
exceeds 70 characters. -/
def display_url_text (urlForDisplay : List Char) : List Char :=
  let t := scheme_stripped urlForDisplay
  if t.length > 70 then t.take 67 ++ "...".toList else t

/-- One `MediaFile` element of the VAST document: its `type` attribute
(`mf_element.get('type')`) and its text node (`mf_element.text`, `none`
covering an absent text node). -/
structure MediaFile where
  typeAttr : Option (List Char)
  text : Option (List Char)

/-- The parts of the parsed VAST XML the handler consumes: the text of the
first `AdTitle` element, all `MediaFile` elements in document order, and the
text of the first `ClickThrough` element.  An outer `none` models an absent
element or an absent text node. -/
structure VastDoc where
  adTitleText : Option (List Char)
  mediaFiles : List MediaFile
  clickThroughText : Option (List Char)

/-- Outcome of the single `subprocess.Popen` + `communicate(timeout=300)`
invocation: normal completion with exit code and captured streams, a
`subprocess.TimeoutExpired`, or an exception raised on startup (binary not
found / not executable). -/
inductive RunOutcome where
  | completed (returncode : Int) (stdout stderr : List Char)
  | timedOut
  | failedToStart (exnMsg : List Char)

/-- Environment oracles of the request handler: the network used by
`resolve_final_url`, the ffmpeg invocation outcome, the resolved file paths,
and whether the output file exists with non-zero size after the run. -/
structure Env where
  net : List Char → Option (List Char)
  run : RunOutcome
  ffmpegPath : List Char
  backgroundPath : List Char
  qrPath : List Char
  filterScriptPath : List Char
  outputPath : List Char
  outputOk : Bool

/-- The rendered HTTP response: an error page (`render_template` with an
`error` message and optional `ffmpeg_stderr` excerpt) or the success page
with its metadata fields. -/
inductive Response where
  | errorPage (error : List Char) (ffmpegStderr : Option (List Char))
  | successPage (adTitle brandName mediaFileUrl rawClickthrough finalClickthrough : List Char)

/-- Observable effects of one POST request: the response, the exact string
handed to `qrcode.make` (if reached), the content written to the ffmpeg log
file by this request (if any), the URL text destined for `drawtext`, and
whether `subprocess.Popen` was invoked. -/
structure PipelineResult where
  response : Response
  qrPayload : Option (List Char)
  logWrite : Option (List Char)
  displayText : Option (List Char)
  attemptedRender : Bool

/-- `el.text.strip() if el is not None and el.text else dflt`. -/
def trimmedTextOr (o : Option (List Char)) (dflt : List Char) : List Char :=
  match o with
  | some t => if t ≠ [] then pyStrip t else dflt
  | none => dflt

/-- `el.text.strip() if el is not None and el.text else None`. -/
def rawClick (o : Option (List Char)) : Option (List Char) :=
  match o with
  | some t => if t ≠ [] then some (pyStrip t) else none
  | none => none

/-- The MP4 MIME type the media loop compares against. -/
def mp4Type : List Char := "video/mp4".toList

/-- The media-loop condition `mf.get('type') == 'video/mp4' and mf.text`. -/
def isMp4Match (mf : MediaFile) : Bool :=
  mf.typeAttr == some mp4Type && truthyO mf.text

/-- The `for mf_element in root.findall('.//MediaFile')` loop (src/app.py
lines 170-176): the first matching element's stripped text, else `none`. -/
def find_media : List MediaFile → Option (List Char)
  | [] => none
  | mf :: rest =>
    if isMp4Match mf then some (pyStrip (mf.text.getD [])) else find_media rest

/-- The constant ffmpeg argument vector of src/app.py lines 369-381, with the
environment-resolved paths and the selected media URL filled in. -/
def ffmpegCommand (env : Env) (mediaUrl : List Char) : List (List Char) :=
  [env.ffmpegPath, "-y".toList, "-loglevel".toList, "debug".toList,
   "-loop".toList, "1".toList, "-r".toList, "23.98".toList, "-i".toList, env.backgroundPath,
   "-loop".toList, "1".toList, "-r".toList, "23.98".toList, "-i".toList, env.qrPath,
   "-i".toList, mediaUrl,
   "-filter_complex_script".toList, env.filterScriptPath,
   "-c:v".toList, "libx264".toList, "-c:a".toList, "copy".toList,
   "-preset".toList, "fast".toList, "-shortest".toList, env.outputPath]

/-- Header of the ffmpeg log file (command line, return code, stdout banner),
as written by src/app.py lines 391-395. -/
def logPre (cmd : List (List Char)) (rc : Int) : List Char :=
  "FFMPEG COMMAND: ".toList ++ List.intercalate " ".toList cmd ++ "\n".toList ++
    "FFMPEG process.returncode: ".toList ++ (toString rc).toList ++ "\n".toList ++
    "FFMPEG STDOUT:\n".toList

/-- Separator between the captured streams in the log file. -/
def logMid : List Char := "\n\nFFMPEG STDERR:\n".toList

/-- Full content of the ffmpeg log file written after `communicate` returns
(src/app.py lines 390-397). -/
def logText (cmd : List (List Char)) (rc : Int) (stdout stderr : List Char) : List Char :=
  logPre cmd rc ++ stdout ++ logMid ++ stderr

/-- Error message for an unusable MediaFile set. -/
def noMediaMsg : List Char :=
  "Could not find a suitable MP4 MediaFile in VAST.".toList

/-- Error message for a missing ClickThrough URL. -/
def missingClickMsg : List Char :=
  "Could not find ClickThrough URL in VAST.".toList

/-- Error message rendered on `subprocess.TimeoutExpired`. -/
def timeoutMsg : List Char :=
  "FFmpeg processing timed out (5 minutes).".toList

/-- Diagnostic used on timeout: the per-request log file was never written
(its name is fresh per request), so the fallback string is shown. -/
def timeoutStderrMsg : List Char :=
  "FFmpeg process timed out. Log file not found or not written.".toList

/-- Error message rendered when `Popen` itself raises (engine unavailable). -/
def engineUnavailableMsg (exnMsg : List Char) : List Char :=
  "Error during FFmpeg execution: ".toList ++ exnMsg

/-- Diagnostic used when `Popen` raises: the log file was never written. -/
def engineUnavailableStderr (exnMsg : List Char) : List Char :=
  "Log file not found. Exception: ".toList ++ exnMsg

/-- Error message rendered on a non-zero ffmpeg exit code. -/
def encodeFailMsg (rc : Int) : List Char :=
  "FFmpeg processing failed. RC: ".toList ++ (toString rc).toList ++ ". Check log.".toList

/-- Error message rendered when ffmpeg exits 0 but the output file is
missing or empty. -/
def emptyOutputMsg : List Char :=
  "FFmpeg completed but output file is missing or empty. Check log.".toList

/-- Embedding of the POST branch of `index` (src/app.py lines 159-450),
starting from the parsed VAST document.  Input acquisition, XML parsing and
the `MalformedInput` path are upstream of this function; the log-file
read-back on the error paths (lines 406-408, 419-421, 428-430) yields the
content written at lines 391-397 for the completed case and the fallback
strings otherwise, since the per-request log filename is fresh. -/
def processRequest (env : Env) (doc : VastDoc) : PipelineResult :=
  let ad_title := trimmedTextOr doc.adTitleText "Untitled Ad".toList
  let brand_name := extract_brand_name ad_title
  match find_media doc.mediaFiles with
  | none => ⟨.errorPage noMediaMsg none, none, none, none, false⟩
  | some media_file_url =>
    if media_file_url = [] then ⟨.errorPage noMediaMsg none, none, none, none, false⟩
    else
      match rawClick doc.clickThroughText with
      | none => ⟨.errorPage missingClickMsg none, none, none, none, false⟩
      | some raw_clickthrough_url =>
        if raw_clickthrough_url = [] then
          ⟨.errorPage missingClickMsg none, none, none, none, false⟩
        else
          let final_resolved_url := get_final_destination env.net raw_clickthrough_url
          let qr := some raw_clickthrough_url
          let url_for_display :=
            if final_resolved_url ≠ [] then final_resolved_url else raw_clickthrough_url
          let simplified_url := display_url_text url_for_display
          let cmd := ffmpegCommand env media_file_url
          match env.run with
          | .timedOut =>
            ⟨.errorPage timeoutMsg (some timeoutStderrMsg), qr, none, some simplified_url, true⟩
          | .failedToStart e =>
            ⟨.errorPage (engineUnavailableMsg e) (some (engineUnavailableStderr e)),
              qr, none, some simplified_url, true⟩
          | .completed rc stdout stderr =>
            let log := logText cmd rc stdout stderr
            if rc ≠ 0 then
              ⟨.errorPage (encodeFailMsg rc) (some (log.take 3000)),
                qr, some log, some simplified_url, true⟩
            else if !env.outputOk then
              ⟨.errorPage emptyOutputMsg (some (log.take 3000)),
                qr, some log, some simplified_url, true⟩
            else
              ⟨.successPage ad_title brand_name media_file_url raw_clickthrough_url
                  final_resolved_url,
                qr, some log, some simplified_url, true⟩

theorem prefixOf_append_of_isPrefixOf :
    ∀ (p s : List Char), p.isPrefixOf s = true → ∃ t, s = p ++ t
  | [], s, _ => ⟨s, rfl⟩
  | _ :: _, [], h => by simp [List.isPrefixOf] at h
  | a :: as, b :: bs, h => by
    simp only [List.isPrefixOf, Bool.and_eq_true, beq_iff_eq] at h
    obtain ⟨t, ht⟩ := prefixOf_append_of_isPrefixOf as bs h.2
    exact ⟨t, by simp [h.1, ht]⟩

theorem isPrefixOf_append_self : ∀ (p t : List Char), p.isPrefixOf (p ++ t) = true
  | [], _ => by simp [List.isPrefixOf]
  | a :: as, t => by simp [List.isPrefixOf, isPrefixOf_append_self as t]

theorem remAux_skip (p : Char) (ps : List Char) :
    ∀ (t y : List Char), remAux p ps (t ++ y) t.length = remAux p ps y 0
  | [], _ => rfl
  | _ :: t, y => by simpa [remAux] using remAux_skip p ps t y

theorem occursIn_nil_left : ∀ (l : List Char), occursIn [] l = true
  | [] => rfl
  | _ :: _ => by simp [occursIn, List.isPrefixOf]

theorem removeOcc_of_not_occursIn :
    ∀ (pat l : List Char), occursIn pat l = false → removeOccurrences pat l = l := by
  intro pat l h
  match pat with
  | [] => rw [occursIn_nil_left] at h; exact absurd h (by simp)
  | p :: ps =>
    induction l with
    | nil => rfl
    | cons c cs ih =>
      simp only [occursIn, Bool.or_eq_false_iff] at h
      simp only [removeOccurrences, remAux, h.1, if_false]
      simpa [removeOccurrences] using ih h.2

theorem removeOcc_insert (p : Char) (ps : List Char) :
    ∀ (x y : List Char), noEarlyOccur (p :: ps) x y = true →
      occursIn (p :: ps) y = false →
      removeOccurrences (p :: ps) (x ++ (p :: ps) ++ y) = x ++ y
  | [], y, _, hy => by
    have hpre : (p :: ps).isPrefixOf ((p :: ps) ++ y) = true := isPrefixOf_append_self _ _
    simp only [List.nil_append, removeOccurrences]
    have : (p :: ps) ++ y = p :: (ps ++ y) := rfl
    rw [this]
    simp only [remAux]
    rw [show ((p :: ps).isPrefixOf (p :: (ps ++ y))) = true from hpre, if_pos rfl]
    rw [remAux_skip p ps ps y]
    simpa [removeOccurrences] using removeOcc_of_not_occursIn (p :: ps) y hy
  | c :: x, y, hx, hy => by
    simp only [noEarlyOccur, Bool.and_eq_true, Bool.not_eq_true'] at hx
    have hrec := removeOcc_insert p ps x y hx.2 hy
    have h1 : (p :: ps).isPrefixOf (c :: (x ++ (p :: ps) ++ y)) = false := by
      simpa using hx.1
    simp only [removeOccurrences] at hrec ⊢
    have h2 : (c :: x) ++ (p :: ps) ++ y = c :: (x ++ (p :: ps) ++ y) := by simp
    rw [h2]
    simp only [remAux, h1, if_false]
    simpa using hrec

theorem length_dropWhile_le_self (p : Char → Bool) :
    ∀ (l : List Char), (l.dropWhile p).length ≤ l.length
  | [] => Nat.le_refl _
  | c :: cs => by
    by_cases h : p c
    · simpa [List.dropWhile, h] using Nat.le_succ_of_le (length_dropWhile_le_self p cs)
    · simp [List.dropWhile, h]

theorem pyStrip_length_le (l : List Char) : (pyStrip l).length ≤ l.length := by
  unfold pyStrip
  calc ((l.dropWhile pyIsSpace).reverse.dropWhile pyIsSpace).reverse.length
      = ((l.dropWhile pyIsSpace).reverse.dropWhile pyIsSpace).length := by
        simp
    _ ≤ (l.dropWhile pyIsSpace).reverse.length := length_dropWhile_le_self _ _
    _ = (l.dropWhile pyIsSpace).length := by simp
    _ ≤ l.length := length_dropWhile_le_self _ _

theorem splitOnChar_ne_nil (sep : Char) : ∀ (l : List Char), splitOnChar sep l ≠ [] := by
  intro l
  cases l with
  | nil => simp [splitOnChar]
  | cons c cs =>
    rcases h0 : splitOnChar sep cs with _ | ⟨p0, ps⟩
    · simp [splitOnChar, h0]
    · by_cases hc : c = sep <;> simp [splitOnChar, h0, hc]

theorem splitOnChar_length_le (sep : Char) :
    ∀ (l : List Char), ∀ part ∈ splitOnChar sep l, part.length ≤ l.length := by
  intro l
  induction l with
  | nil => intro part hp; simp [splitOnChar] at hp; simp [hp]
  | cons c cs ih =>
    intro part hp
    rcases hsplit : splitOnChar sep cs with _ | ⟨p0, ps⟩
    · exact absurd hsplit (splitOnChar_ne_nil sep cs)
    · simp only [splitOnChar, hsplit] at hp
      by_cases hc : c = sep
      · rw [if_pos hc] at hp
        simp only [List.mem_cons] at hp
        rcases hp with h | h | h
        · simp [h]
        · subst h
          exact Nat.le_succ_of_le (ih part (by rw [hsplit]; exact List.mem_cons_self _ _) )
        · exact Nat.le_succ_of_le (ih part (by rw [hsplit]; exact List.mem_cons_of_mem _ h))
      · rw [if_neg hc] at hp
        simp only [List.mem_cons] at hp
        rcases hp with h | h
        · have : p0.length ≤ cs.length :=
            ih p0 (by rw [hsplit]; exact List.mem_cons_self _ _)
          simpa [h] using Nat.succ_le_succ this
        · exact Nat.le_succ_of_le (ih part (by rw [hsplit]; exact List.mem_cons_of_mem _ h))

theorem omdAt_length_le (l : List Char) (b : List Char) :
    omdAt l = some b → b.length ≤ l.length := by
  intro h
  unfold omdAt at h
  split at h
  next u1 o m d u2 rest =>
    split at h
    · split at h
      · next hrun =>
        injection h with h
        subst h
        exact Nat.le_trans (Nat.le_of_lt hrun.2) (by simp; omega)
      · exact absurd h (by simp)
    · exact absurd h (by simp)
  next => exact absurd h (by simp)

theorem truthyO_getD (o : Option (List Char)) (h : truthyO o = true) : o.getD [] ≠ [] := by
  cases o with
  | none => simp [truthyO] at h
  | some t => simpa [truthyO, List.isEmpty_iff] using h

theorem mem_of_get?_eq :
    ∀ (l : List (List Char)) (n : Nat) (a : List Char), l.get? n = some a → a ∈ l
  | x :: _, 0, _, h => by injection h with h; exact h ▸ List.mem_cons_self _ _
  | _ :: xs, n + 1, a, h => List.mem_cons_of_mem _ (mem_of_get?_eq xs n a h)
  | [], _, _, h => by simp at h

theorem mem_of_head?_eq :
    ∀ (l : List (List Char)) (a : List Char), l.head? = some a → a ∈ l
  | x :: _, _, h => by injection h with h; exact h ▸ List.mem_cons_self _ _
  | [], _, h => by simp at h

theorem pyUnquote_no_escape : ∀ (w : List Char), '%' ∉ w → pyUnquote w = w
  | [], _ => rfl
  | [_], _ => rfl
  | [_, _], _ => rfl
  | c :: a :: b :: rest, h => by
    have hc : ¬c = '%' := fun he => h (he ▸ List.mem_cons_self _ _)
    have ht : '%' ∉ a :: b :: rest := fun hm => h (List.mem_cons_of_mem _ hm)
    simp only [pyUnquote, if_neg hc]
    rw [pyUnquote_no_escape (a :: b :: rest) ht]

theorem omdSearch_length_le :
    ∀ (l b : List Char), omdSearch l = some b → b.length ≤ l.length := by
  intro l
  induction l with
  | nil => intro b h; simp [omdSearch] at h
  | cons c cs ih =>
    intro b h
    simp only [omdSearch] at h
    rcases hat : omdAt (c :: cs) with _ | b0
    · rw [hat] at h
      exact Nat.le_succ_of_le (ih b h)
    · rw [hat] at h
      injection h with h
      subst h
      exact omdAt_length_le _ _ hat

/-- C1, counterexample: for the clickthrough URL
`https://t.example/c?click=https%3A%2F%2Fex.com%2Fa%2520b`, one level of
percent-decoding of the embedded `click` value yields
`https://ex.com/a%20b`, but `extract_click_url` yields `https://ex.com/a b`
(the value is decoded a second time), so the extraction is not exactly the
once-decoded embedded URL. -/
theorem extract_click_one_decode_cex :
    extract_click_url "https://t.example/c?click=https%3A%2F%2Fex.com%2Fa%2520b".toList =
      some "https://ex.com/a b".toList ∧
    pyUnquote "https%3A%2F%2Fex.com%2Fa%2520b".toList = "https://ex.com/a%20b".toList ∧
    "https://ex.com/a b".toList ≠ "https://ex.com/a%20b".toList := by
  exact ⟨by decide, by decide, by decide⟩

/-- C1, amended: whenever the query string of a clickthrough URL binds
`click` (query parsing already percent-decodes values once), the extraction
returns that first `click` value decoded once more — regardless of any `u`,
`url`, `redirect_url`, `destination_url` or `finalUrl` parameters, so
`click` takes precedence; and the extra decode is the identity whenever the
once-decoded value contains no percent sign. -/
theorem extract_click_url_click_precedence :
    (∀ (url v : List Char) (vs : List (List Char)),
        qsGet (urlQuery url) "click".toList = v :: vs →
        extract_click_url url = some (pyUnquote v)) ∧
    (∀ w : List Char, '%' ∉ w → pyUnquote w = w) := by
  constructor
  · intro url v vs h
    by_cases hne : url = []
    · subst hne
      rw [show qsGet (urlQuery []) "click".toList = [] from rfl] at h
      exact absurd h (by simp)
    · simp only [extract_click_url, if_neg hne]
      rw [h]
      rfl
  · exact pyUnquote_no_escape

/-- C1, witness for the amended theorem at a concrete URL on which `click`
coexists with `u` and `url` parameters. -/
theorem extract_click_url_click_precedence_witness :
    extract_click_url "https://t.example/c?u=one&click=two3&url=four".toList =
      some (pyUnquote "two3".toList) ∧
    pyUnquote "go.example/page".toList = "go.example/page".toList :=
  ⟨extract_click_url_click_precedence.1 _ "two3".toList [] (by decide),
   extract_click_url_click_precedence.2 _ (by decide)⟩

/-- C2: when no intermediate URL can be extracted from the clickthrough URL,
`get_final_destination` resolves the raw URL directly and keeps the raw URL
whenever resolution fails (`requests` exception, modelled as `net url = none`)
or yields no change; and on every non-empty input the resolver returns a
non-empty URL (totality: every failure path degrades to a URL). -/
theorem get_final_destination_no_intermediate :
    (∀ (net : List Char → Option (List Char)) (url : List Char),
        truthyO (extract_click_url url) = false →
        get_final_destination net url =
          (if resolve_final_url net url ≠ [] ∧ resolve_final_url net url ≠ url
            then resolve_final_url net url else url)) ∧
    (∀ (net : List Char → Option (List Char)) (url : List Char),
        net url = none → resolve_final_url net url = url) ∧
    (∀ (net : List Char → Option (List Char)) (url : List Char),
        url ≠ [] → get_final_destination net url ≠ []) := by
  refine ⟨?_, ?_, ?_⟩
  · intro net url h
    by_cases hne : url = []
    · subst hne
      simp [get_final_destination, resolve_final_url]
    · simp only [get_final_destination, if_neg hne, h, Bool.false_eq_true, if_false]
  · intro net url h
    unfold resolve_final_url
    split
    · rfl
    · split
      · rfl
      · rw [h]
  · intro net url hne
    unfold get_final_destination
    rw [if_neg hne]
    by_cases ht : truthyO (extract_click_url url) = true
    · simp only [ht, if_true]
      have hi : (extract_click_url url).getD [] ≠ [] :=
        truthyO_getD _ ht
      split
      · next hf => exact hf
      · exact hi
    · rw [if_neg ht]
      show (if resolve_final_url net url ≠ [] ∧ resolve_final_url net url ≠ url
            then resolve_final_url net url else url) ≠ []
      split
      · next hf => exact hf.1
      · exact hne

/-- C2, witness: with a network oracle that always fails and a clickthrough
URL carrying no recognised parameter, the resolver returns the raw URL. -/
theorem get_final_destination_no_intermediate_witness :
    get_final_destination (fun _ => none) "https://t.example/page".toList =
      (if resolve_final_url (fun _ => none) "https://t.example/page".toList ≠ [] ∧
          resolve_final_url (fun _ => none) "https://t.example/page".toList ≠
            "https://t.example/page".toList
        then resolve_final_url (fun _ => none) "https://t.example/page".toList
        else "https://t.example/page".toList) ∧
    resolve_final_url (fun _ => none) "https://t.example/page".toList =
      "https://t.example/page".toList ∧
    get_final_destination (fun _ => none) "https://t.example/page".toList ≠ [] :=
  ⟨get_final_destination_no_intermediate.1 _ _ (by decide),
   get_final_destination_no_intermediate.2.1 _ _ rfl,
   get_final_destination_no_intermediate.2.2 _ _ (by decide)⟩

/-- C3: when the scheme-stripped decoded display form exceeds 70 characters,
the drawn text is its first 67 characters followed by the 3-character
ellipsis, for a total length of exactly 70; otherwise it is unchanged. -/
theorem display_url_truncation :
    ∀ urlForDisplay : List Char,
      ((scheme_stripped urlForDisplay).length > 70 →
        display_url_text urlForDisplay =
          (scheme_stripped urlForDisplay).take 67 ++ "...".toList ∧
        (display_url_text urlForDisplay).length = 70) ∧
      ((scheme_stripped urlForDisplay).length ≤ 70 →
        display_url_text urlForDisplay = scheme_stripped urlForDisplay) := by
  intro u
  constructor
  · intro h
    have he : display_url_text u = (scheme_stripped u).take 67 ++ "...".toList := by
      unfold display_url_text
      rw [if_pos h]
    refine ⟨he, ?_⟩
    rw [he]
    simp only [List.length_append, List.length_take]
    have : "...".toList.length = 3 := by decide
    omega
  · intro h
    unfold display_url_text
    rw [if_neg (by omega)]

/-- C3, witness: a URL whose scheme-stripped form has 80 characters is cut
to 67 characters plus the ellipsis. -/
theorem display_url_truncation_witness :
    display_url_text
        "https://example.com/aaaaaaaaaaaaaaaaaaaaaaaaaaaaaaaaaaaaaaaaaaaaaaaaaaaaaaaaaaaaaaaaaaaa".toList =
      (scheme_stripped
        "https://example.com/aaaaaaaaaaaaaaaaaaaaaaaaaaaaaaaaaaaaaaaaaaaaaaaaaaaaaaaaaaaaaaaaaaaa".toList).take 67
        ++ "...".toList ∧
    (display_url_text
        "https://example.com/aaaaaaaaaaaaaaaaaaaaaaaaaaaaaaaaaaaaaaaaaaaaaaaaaaaaaaaaaaaaaaaaaaaa".toList).length = 70 ∧
    display_url_text "https://d.example/p".toList =
      scheme_stripped "https://d.example/p".toList := by
  refine ⟨((display_url_truncation _).1 (by decide)).1,
          ((display_url_truncation _).1 (by decide)).2,
          (display_url_truncation _).2 (by decide)⟩

/-- C4: the brand heuristic applies its rules in the stated order with first
match winning — OMD regex capture, then the second underscore segment when
longer than 2, then the first underscore segment longer than 3 starting with
an uppercase letter, then the title truncated at the first parenthesis and
trimmed — and the three documented examples evaluate as stated. -/
theorem extract_brand_name_rule_order :
    (∀ (t b : List Char), t ≠ [] → omdSearch t = some b →
        extract_brand_name t = b) ∧
    (∀ (t b : List Char), t ≠ [] → omdSearch t = none →
        secondSegment (splitOnChar '_' t) = some b → extract_brand_name t = b) ∧
    (∀ (t b : List Char), t ≠ [] → omdSearch t = none →
        secondSegment (splitOnChar '_' t) = none →
        ((splitOnChar '_' t).filter fun p => decide (p.length > 3) && firstCharUpper p).head?
          = some b →
        extract_brand_name t = b) ∧
    (∀ (t : List Char), t ≠ [] → omdSearch t = none →
        secondSegment (splitOnChar '_' t) = none →
        ((splitOnChar '_' t).filter fun p => decide (p.length > 3) && firstCharUpper p).head?
          = none →
        extract_brand_name t = pyStrip ((splitOnChar '(' t).headD [])) ∧
    extract_brand_name omdTitle = "The Home Depot".toList ∧
    extract_brand_name "ABC_Nike_Campaign".toList = "Nike".toList ∧
    extract_brand_name [] = "Default Brand".toList := by
  refine ⟨?_, ?_, ?_, ?_, by decide, by decide, by decide⟩
  · intro t b ht ho
    simp only [extract_brand_name, if_neg ht, ho]
  · intro t b ht ho hs
    simp only [extract_brand_name, if_neg ht, ho, hs]
  · intro t b ht ho hs hf
    simp only [extract_brand_name, if_neg ht, ho, hs, hf]
  · intro t ht ho hs hf
    simp only [extract_brand_name, if_neg ht, ho, hs, hf]

/-- C4, witness: the second-segment rule applied to `ABC_Nike_Campaign`. -/
theorem extract_brand_name_rule_order_witness :
    extract_brand_name "ABC_Nike_Campaign".toList = "Nike".toList :=
  extract_brand_name_rule_order.2.1 "ABC_Nike_Campaign".toList "Nike".toList
    (by decide) (by decide) (by decide)

/-- C9, counterexample: the title `" "` (one space) is non-empty, yet its
derived brand name is the empty string, refuting non-emptiness; and the
empty title yields the 13-character constant `Default Brand`, refuting the
length bound. -/
theorem brand_name_invariant_cex :
    extract_brand_name " ".toList = [] ∧
    ¬ (extract_brand_name ([] : List Char)).length ≤ ([] : List Char).length := by
  exact ⟨by decide, by decide⟩

/-- C9, amended: for every non-empty ad title the derived brand name is at
most as long as the title (every rule returns a segment, capture or trimmed
part of the title); the empty title maps to the constant `Default Brand`,
which is longer than the title, and the brand may itself be empty when the
final cleanup rule strips the title to nothing. -/
theorem brand_name_length_bound :
    (∀ t : List Char, t ≠ [] → (extract_brand_name t).length ≤ t.length) ∧
    extract_brand_name [] = "Default Brand".toList := by
  constructor
  · intro t ht
    unfold extract_brand_name
    rw [if_neg ht]
    rcases ho : omdSearch t with _ | b
    · simp only [ho]
      rcases hs : secondSegment (splitOnChar '_' t) with _ | p1
      · simp only [hs]
        rcases hf : ((splitOnChar '_' t).filter
            fun p => decide (p.length > 3) && firstCharUpper p).head? with _ | pb
        · simp only [hf]
          rcases hsp : splitOnChar '(' t with _ | ⟨p, ps⟩
          · exact absurd hsp (splitOnChar_ne_nil _ _)
          · calc (pyStrip ((p :: ps).headD [])).length
                = (pyStrip p).length := rfl
              _ ≤ p.length := pyStrip_length_le p
              _ ≤ t.length := splitOnChar_length_le '(' t p
                  (by rw [hsp]; exact List.mem_cons_self _ _)
        · simp only [hf]
          have hmem : pb ∈ (splitOnChar '_' t).filter
              (fun p => decide (p.length > 3) && firstCharUpper p) :=
            mem_of_head?_eq _ _ hf
          exact splitOnChar_length_le '_' t pb (List.mem_filter.1 hmem).1
      · simp only [hs]
        have hget : (splitOnChar '_' t).get? 1 = some p1 := by
          unfold secondSegment at hs
          rcases hg : (splitOnChar '_' t).get? 1 with _ | q
          · rw [hg] at hs; exact absurd hs (by simp)
          · rw [hg] at hs
            have hs2 : (if q.length > 2 then some q else none) = some p1 := hs
            by_cases hq : q.length > 2
            · rw [if_pos hq] at hs2
              injection hs2 with hs2
              rw [hs2]
            · rw [if_neg hq] at hs2
              exact absurd hs2 (by simp)
        exact splitOnChar_length_le '_' t p1 (mem_of_get?_eq _ 1 p1 hget)
    · simp only [ho]
      exact omdSearch_length_le t b ho
  · decide

/-- C9, witness for the amended length bound at a concrete non-empty title. -/
theorem brand_name_length_bound_witness :
    (extract_brand_name "ABC_Nike_Campaign".toList).length ≤
      "ABC_Nike_Campaign".toList.length ∧
    extract_brand_name [] = "Default Brand".toList :=
  ⟨brand_name_length_bound.1 "ABC_Nike_Campaign".toList (by decide),
   brand_name_length_bound.2⟩

/-- C10: the display text is built by percent-decoding the chosen URL and
deleting occurrences of `https://` and `http://` at any position — in
particular a scheme substring embedded after an arbitrary non-empty prefix
(such as inside a query parameter) is removed, not only a leading one. -/
theorem scheme_strip_anywhere :
    (∀ (url x y : List Char),
        pyUnquote url = x ++ httpsPat ++ y →
        noEarlyOccur httpsPat x y = true →
        occursIn httpsPat y = false →
        occursIn httpPat (x ++ y) = false →
        scheme_stripped url = x ++ y) ∧
    (∀ (url x y : List Char),
        pyUnquote url = x ++ httpPat ++ y →
        occursIn httpsPat (x ++ httpPat ++ y) = false →
        noEarlyOccur httpPat x y = true →
        occursIn httpPat y = false →
        scheme_stripped url = x ++ y) := by
  constructor
  · intro url x y hdec hearly hy hxy
    unfold scheme_stripped
    rw [hdec]
    have e : httpsPat = 'h' :: "ttps://".toList := rfl
    rw [e] at hearly hy ⊢
    rw [removeOcc_insert 'h' "ttps://".toList x y hearly hy]
    exact removeOcc_of_not_occursIn httpPat (x ++ y) hxy
  · intro url x y hdec hs hearly hy
    unfold scheme_stripped
    rw [hdec]
    rw [removeOcc_of_not_occursIn httpsPat (x ++ httpPat ++ y) hs]
    have e : httpPat = 'h' :: "ttp://".toList := rfl
    rw [e] at hearly hy ⊢
    exact removeOcc_insert 'h' "ttp://".toList x y hearly hy

/-- C10, witness: a percent-encoded `https://` inside a query parameter is
decoded and removed even though the URL does not start with it. -/
theorem scheme_strip_anywhere_witness :
    scheme_stripped "go.example/?u=https%3A%2F%2Fshop.example".toList =
      "go.example/?u=".toList ++ "shop.example".toList :=
  scheme_strip_anywhere.1 _ "go.example/?u=".toList "shop.example".toList
    (by decide) (by decide) (by decide) (by decide)

theorem find_media_none :
    ∀ (l : List MediaFile), (∀ m ∈ l, isMp4Match m = false) → find_media l = none := by
  intro l h
  induction l with
  | nil => rfl
  | cons mf rest ih =>
    have h0 : isMp4Match mf = false := h mf (List.mem_cons_self _ _)
    simp only [find_media, h0, Bool.false_eq_true, if_false]
    exact ih fun m hm => h m (List.mem_cons_of_mem _ hm)

/-- Concrete VAST document used by closed witnesses: a title, one suitable
MP4 MediaFile, and a tracker-wrapped ClickThrough. -/
def docC : VastDoc :=
  ⟨some " Demo Ad ".toList,
   [⟨some mp4Type, some "https://cdn.example/video.mp4".toList⟩],
   some "https://t.example/c?click=https%3A%2F%2Fd.example".toList⟩

/-- Concrete environment used by closed witnesses: failing network oracle,
a completed encoder run with exit code 0, and an existing output file. -/
def envBase : Env :=
  ⟨fun _ => none,
   .completed 0 "OUT".toList "ERR".toList,
   "/opt/homebrew/bin/ffmpeg".toList,
   "/app/static/images/background-kerv.jpg".toList,
   "/tmp/vast_converter_generated/qrcode.png".toList,
   "/tmp/vast_converter_generated/filter.txt".toList,
   "/tmp/vast_converter_generated/out.mp4".toList,
   true⟩

/-- C5: the media loop selects the first MediaFile whose `type` attribute is
`video/mp4` and whose text is non-empty — any elements after the first match
(including higher-bitrate ones) are ignored — and when no element matches,
the request ends in the `NoSuitableMedia` error page with no QR, no log and
no subprocess invocation. -/
theorem media_selection_first_mp4 :
    (∀ (pre : List MediaFile) (mf : MediaFile) (rest : List MediaFile) (t : List Char),
        (∀ m ∈ pre, isMp4Match m = false) →
        mf.typeAttr = some mp4Type → mf.text = some t → t ≠ [] →
        find_media (pre ++ mf :: rest) = some (pyStrip t)) ∧
    (∀ (env : Env) (doc : VastDoc),
        (∀ m ∈ doc.mediaFiles, isMp4Match m = false) →
        processRequest env doc = ⟨.errorPage noMediaMsg none, none, none, none, false⟩) := by
  constructor
  · intro pre mf rest t hpre htype htext htne
    induction pre with
    | nil =>
      have hmatch : isMp4Match mf = true := by
        simp [isMp4Match, htype, truthyO, htext, List.isEmpty_iff, htne]
      simp only [List.nil_append, find_media, hmatch, if_true, htext]
      rfl
    | cons m0 pre0 ih =>
      have h0 : isMp4Match m0 = false := hpre m0 (List.mem_cons_self _ _)
      simp only [List.cons_append, find_media, h0, Bool.false_eq_true, if_false]
      exact ih fun m hm => hpre m (List.mem_cons_of_mem _ hm)
  · intro env doc h
    have hm := find_media_none doc.mediaFiles h
    simp [processRequest, hm]

/-- C5, witness: a non-MP4 file precedes two MP4 files; the first MP4 wins;
a document with only a non-MP4 MediaFile yields the error page. -/
theorem media_selection_first_mp4_witness :
    find_media
        [⟨some "video/webm".toList, some "https://cdn.example/a.webm".toList⟩,
         ⟨some mp4Type, some "https://cdn.example/video.mp4".toList⟩,
         ⟨some mp4Type, some "https://cdn.example/video-hi.mp4".toList⟩] =
      some (pyStrip "https://cdn.example/video.mp4".toList) ∧
    processRequest envBase
        ⟨docC.adTitleText,
         [⟨some "video/webm".toList, some "https://cdn.example/a.webm".toList⟩],
         docC.clickThroughText⟩ =
      ⟨.errorPage noMediaMsg none, none, none, none, false⟩ :=
  ⟨media_selection_first_mp4.1
      [⟨some "video/webm".toList, some "https://cdn.example/a.webm".toList⟩]
      ⟨some mp4Type, some "https://cdn.example/video.mp4".toList⟩
      [⟨some mp4Type, some "https://cdn.example/video-hi.mp4".toList⟩]
      "https://cdn.example/video.mp4".toList
      (by decide) rfl rfl (by decide),
   media_selection_first_mp4.2 envBase _ (by decide)⟩

/-- C6: when `Popen` raises because the encoder binary cannot be located or
executed, the handler renders the dedicated execution-error page carrying
the exception text, and that message differs from the encode-failure
message shown for every non-zero exit code, so the condition is reported
distinctly and never silently. -/
theorem engine_unavailable_distinct :
    (∀ (env : Env) (doc : VastDoc) (e m r : List Char),
        find_media doc.mediaFiles = some m → m ≠ [] →
        rawClick doc.clickThroughText = some r → r ≠ [] →
        env.run = .failedToStart e →
        (processRequest env doc).response =
          .errorPage (engineUnavailableMsg e) (some (engineUnavailableStderr e))) ∧
    (∀ (e : List Char) (rc : Int), engineUnavailableMsg e ≠ encodeFailMsg rc) := by
  constructor
  · intro env doc e m r hm hm2 hr hr2 hrun
    simp [processRequest, hm, hm2, hr, hr2, hrun]
  · intro e rc h
    have h1 : (engineUnavailableMsg e).head? = (encodeFailMsg rc).head? := by rw [h]
    rw [show engineUnavailableMsg e =
          'E' :: ("rror during FFmpeg execution: ".toList ++ e) from rfl,
        show encodeFailMsg rc =
          'F' :: ("Fmpeg processing failed. RC: ".toList ++
            ((toString rc).toList ++ ". Check log.".toList)) from rfl] at h1
    simp only [List.head?, Option.some.injEq] at h1
    exact absurd h1 (by decide)

/-- C6, witness: a missing binary produces the execution-error page, and its
message differs from the encode-failure message for exit code 1. -/
theorem engine_unavailable_distinct_witness :
    (processRequest
        { envBase with run := .failedToStart "No such file or directory".toList }
        docC).response =
      .errorPage (engineUnavailableMsg "No such file or directory".toList)
        (some (engineUnavailableStderr "No such file or directory".toList)) ∧
    engineUnavailableMsg "No such file or directory".toList ≠ encodeFailMsg 1 :=
  ⟨engine_unavailable_distinct.1 _ docC "No such file or directory".toList
      "https://cdn.example/video.mp4".toList
      "https://t.example/c?click=https%3A%2F%2Fd.example".toList
      (by decide) (by decide) (by decide) (by decide) rfl,
   engine_unavailable_distinct.2 _ 1⟩

/-- C7, counterexample: on a timed-out encoder run that was actually
attempted, nothing at all is written to the log artifact (the streams were
never captured), refuting persistence "regardless of outcome ... on
timeout". -/
theorem render_log_timeout_cex :
    (processRequest { envBase with run := .timedOut } docC).logWrite = none ∧
    (processRequest { envBase with run := .timedOut } docC).attemptedRender = true := by
  exact ⟨rfl, rfl⟩

/-- C7, amended: when the encoder run completes (exit code zero or not), the
log artifact receives the full captured stdout and stderr; when the run
times out, no log is written by the invocation and a fallback diagnostic is
used instead. -/
theorem render_log_persistence :
    ∀ (env : Env) (doc : VastDoc) (m r : List Char) (rc : Int) (stdout stderr : List Char),
      find_media doc.mediaFiles = some m → m ≠ [] →
      rawClick doc.clickThroughText = some r → r ≠ [] →
      ((env.run = .completed rc stdout stderr →
          ∃ A B, (processRequest env doc).logWrite = some (A ++ stdout ++ B ++ stderr)) ∧
        (env.run = .timedOut → (processRequest env doc).logWrite = none)) := by
  intro env doc m r rc stdout stderr hm hm2 hr hr2
  constructor
  · intro hrun
    refine ⟨logPre (ffmpegCommand env m) rc, logMid, ?_⟩
    by_cases hrc : rc = 0
    · by_cases hok : env.outputOk = true
      · simp [processRequest, hm, hm2, hr, hr2, hrun, hrc, hok, logText]
      · simp [processRequest, hm, hm2, hr, hr2, hrun, hrc, hok, logText]
    · simp [processRequest, hm, hm2, hr, hr2, hrun, hrc, logText]
  · intro hrun
    simp [processRequest, hm, hm2, hr, hr2, hrun]

/-- C7, witness: the completed run of the base environment persists both
streams; the same request with a timed-out run writes nothing. -/
theorem render_log_persistence_witness :
    (∃ A B, (processRequest envBase docC).logWrite =
        some (A ++ "OUT".toList ++ B ++ "ERR".toList)) ∧
    (processRequest { envBase with run := .timedOut } docC).logWrite = none :=
  ⟨(render_log_persistence envBase docC "https://cdn.example/video.mp4".toList
      "https://t.example/c?click=https%3A%2F%2Fd.example".toList 0
      "OUT".toList "ERR".toList (by decide) (by decide) (by decide) (by decide)).1 rfl,
   (render_log_persistence { envBase with run := .timedOut } docC
      "https://cdn.example/video.mp4".toList
      "https://t.example/c?click=https%3A%2F%2Fd.example".toList 0
      "OUT".toList "ERR".toList (by decide) (by decide) (by decide) (by decide)).2 rfl⟩

/-- C8: every request that reaches QR generation feeds `qrcode.make` exactly
the raw (stripped) ClickThrough text, independent of the network oracle and
of the resolved destination. -/
theorem qr_uses_raw_clickthrough :
    ∀ (env : Env) (doc : VastDoc) (m r : List Char),
      find_media doc.mediaFiles = some m → m ≠ [] →
      rawClick doc.clickThroughText = some r → r ≠ [] →
      (processRequest env doc).qrPayload = some r := by
  intro env doc m r hm hm2 hr hr2
  cases hrun : env.run with
  | completed rc stdout stderr =>
    by_cases hrc : rc = 0
    · by_cases hok : env.outputOk = true
      · simp [processRequest, hm, hm2, hr, hr2, hrun, hrc, hok]
      · simp [processRequest, hm, hm2, hr, hr2, hrun, hrc, hok]
    · simp [processRequest, hm, hm2, hr, hr2, hrun, hrc]
  | timedOut => simp [processRequest, hm, hm2, hr, hr2, hrun]
  | failedToStart e => simp [processRequest, hm, hm2, hr, hr2, hrun]

/-- C8, witness: for the concrete document the QR payload is the raw
tracker URL even though the resolved destination differs from it. -/
theorem qr_uses_raw_clickthrough_witness :
    (processRequest envBase docC).qrPayload =
      some "https://t.example/c?click=https%3A%2F%2Fd.example".toList ∧
    get_final_destination envBase.net
        "https://t.example/c?click=https%3A%2F%2Fd.example".toList ≠
      "https://t.example/c?click=https%3A%2F%2Fd.example".toList :=
  ⟨qr_uses_raw_clickthrough envBase docC "https://cdn.example/video.mp4".toList
      "https://t.example/c?click=https%3A%2F%2Fd.example".toList
      (by decide) (by decide) (by decide) (by decide),
   by decide⟩
